import Mathlib

/-
A shallow embedding of the source-tracking orchestrator
(src/sourceTracking.ts) and of the push command (src/commands/source/push.ts).

External collaborators (the local shadow repo, the remote source tracking
service, the SDR metadata resolver and ComponentSet, the node path module)
are modelled as functions supplied through an environment record: every
claim quantifies over those environments, and the orchestration logic
itself is translated statement by statement from the TypeScript source.

JavaScript runtime details that the claims depend on are modelled
explicitly:
- a Map keyed by strings is an insertion-ordered association list whose
  set operation replaces in place;
- a Set of objects de-duplicates by reference, never by structural value,
  so collections of freshly created objects are plain append lists, and
  reference identity of pre-existing objects is tracked with numeric ids;
- truthiness of a string is being non-empty; truthiness of an optional
  value is being present (and non-empty for strings);
- strict equality between undefined and a boolean is false;
- a thrown Error is modelled with Except, carrying the message.
-/

namespace ST

inductive Origin where
  | loc
  | rem
deriving DecidableEq, Repr

inductive CState where
  | add
  | delete
  | changed
  | unchanged
  | moved
deriving DecidableEq, Repr

/-- ChangeOptions from sourceTracking.ts: origin is optional, state required. -/
structure ChangeOptions where
  origin : Option Origin
  state : CState
deriving DecidableEq, Repr

/-- Modelled from the spec: RemoteChangeElement lives in
shared/remoteSourceTrackingService which is not under src. The spec data
model gives a remote identity a type and a name, plus the optional
deleted and modified flags that Partial of it exposes on ChangeResult. -/
structure RemoteChangeElement where
  name : String
  type : String
  deleted : Option Bool
  modified : Option Bool
deriving DecidableEq, Repr

/-- ChangeResult from sourceTracking.ts: Partial RemoteChangeElement plus
origin and optional filenames. The origin field is kept optional because
the runtime object built by spreading a missing map entry in
populateFilePaths can lack it. -/
structure ChangeResult where
  origin : Option Origin
  type : Option String
  name : Option String
  deleted : Option Bool
  modified : Option Bool
  filenames : Option (List String)
deriving DecidableEq, Repr, Inhabited

/-- A SourceComponent as seen by this code: fullName, type name, an
optional xml descriptor path, and the walkContent paths. -/
structure SourceComp where
  fullName : String
  typeName : String
  xml : Option String
  walkContent : List String
deriving DecidableEq, Repr

/-- The environment of one SourceTracking instance: the two ledgers and
the external resolvers, as consumed by the orchestrator. -/
structure TrackingEnv where
  projectPath : String
  pathRelative : String → String
  getModifyFilenames : List String
  getAddFilenames : List String
  getDeleteFilenames : List String
  retrieveUpdates : List RemoteChangeElement
  fromSource : List (Option String × Option String) → List SourceComp
  resolvePath : String → List SourceComp

/-- Insertion-ordered string-keyed map, as a JS Map: set replaces the
value in place when the key exists, otherwise appends. -/
def mapSet {β : Type} (m : List (String × β)) (k : String) (v : β) : List (String × β) :=
  if (m.find? fun p => p.1 == k).isSome then
    m.map fun p => if p.1 == k then (k, v) else p
  else m ++ [(k, v)]

def mapFind {β : Type} (m : List (String × β)) (k : String) : Option β :=
  (m.find? fun p => p.1 == k).map (·.2)

/-- JS truthiness of an optional string: present and non-empty. -/
def truthyOpt : Option String → Bool := fun o =>
  match o with
  | none => false
  | some s => s != ""

def optStr : Option String → String := fun o =>
  match o with
  | none => "undefined"
  | some s => s

/-- The element rendering used in the populateFilePaths error message. -/
def describeNameType (e : ChangeResult) : String :=
  optStr e.name ++ "(" ++ optStr e.type ++ ")"

/-- Modelled from the spec: getMetadataKey lives in
shared/remoteSourceTrackingService which is not under src; spec section 3
defines the metadata key as a string built deterministically from the
type and the name. -/
def getMetadataKey (ty nm : String) : String :=
  ty ++ "__" ++ nm

/-- getKeyFromObject from sourceTracking.ts: requires truthy type and
name, otherwise throws. The message serialization of the element
(JSON.stringify, an external) is modelled by describeNameType. -/
def getKeyFromObject (e : ChangeResult) : Except String String :=
  match e.type, e.name with
  | some t, some n =>
    if t != "" && n != "" then Except.ok (getMetadataKey t n)
    else Except.error ("unable to complete key from " ++ describeNameType e)
  | _, _ => Except.error ("unable to complete key from " ++ describeNameType e)

/-- Wrapping of a local filename as a ChangeResult, as done inline in
getChanges for origin local. -/
def wrapOne (f : String) : ChangeResult :=
  { origin := some Origin.loc, type := none, name := none,
    deleted := none, modified := none, filenames := some [f] }

def wrapLocal (fns : List String) : List ChangeResult :=
  fns.map wrapOne

/-- Spreading a RemoteChangeElement into a ChangeResult with origin
remote, as done in getChanges for origin remote. -/
def remoteToCR (c : RemoteChangeElement) : ChangeResult :=
  { origin := some Origin.rem, type := some c.type, name := some c.name,
    deleted := c.deleted, modified := c.modified, filenames := none }

/-- getChanges from sourceTracking.ts. The remote branch filters with
strict equality between the optional deleted flag and the boolean
(state === delete), so an element with no deleted flag passes neither
filter. Unhandled origin/state combinations fall through to the final
empty return. -/
def getChanges (env : TrackingEnv) (opts : Option ChangeOptions) : List ChangeResult :=
  match opts with
  | none => []
  | some o =>
    match o.origin, o.state with
    | some Origin.loc, CState.changed => wrapLocal env.getModifyFilenames
    | some Origin.loc, CState.delete => wrapLocal env.getDeleteFilenames
    | some Origin.loc, CState.add => wrapLocal env.getAddFilenames
    | some Origin.rem, s =>
      (env.retrieveUpdates.filter fun c =>
        decide (c.deleted = some (decide (s = CState.delete)))).map remoteToCR
    | _, _ => []

/-- The filenames attached to a matched component in populateFilePaths:
xml then walkContent, with falsy entries filtered out. -/
def truthyFilenames (comp : SourceComp) : List String :=
  ((comp.xml :: comp.walkContent.map some).filterMap id).filter fun s => s != ""

/-- The elementMap building loop of populateFilePaths: one set per
element, keyed by getKeyFromObject, which can throw. -/
def buildKeyMap (es : List ChangeResult) : Except String (List (String × ChangeResult)) :=
  es.foldlM (fun m e => (getKeyFromObject e).map fun k => mapSet m k e) []

/-- The matched-component update loop of populateFilePaths. A missing map
entry spreads to an all-absent record, as spreading undefined does. -/
def applyCompPF (m : List (String × ChangeResult)) (comp : SourceComp) : List (String × ChangeResult) :=
  if comp.fullName ≠ "" ∧ comp.typeName ≠ "" then
    mapSet m (getMetadataKey comp.typeName comp.fullName)
      { (mapFind m (getMetadataKey comp.typeName comp.fullName)).getD default with
          modified := some true, filenames := some (truthyFilenames comp) }
  else m

/-- populateFilePaths from sourceTracking.ts. The external ComponentSet
built from ComponentLike records is modelled by its size: the number of
distinct (type, fullName) pairs among the requested elements; fromSource
is the environment function standing for ComponentSet.fromSource. -/
def populateFilePaths (env : TrackingEnv) (es : List ChangeResult) : Except String (List ChangeResult) :=
  if es.isEmpty then Except.ok []
  else if (es.map fun e => (e.type, e.name)).dedup.length < es.length then
    Except.error ("unable to generate complete component set for "
      ++ String.intercalate "," (es.map describeNameType))
  else
    match buildKeyMap es with
    | Except.error m => Except.error m
    | Except.ok m0 =>
      Except.ok (((env.fromSource (es.map fun e => (e.type, e.name))).foldl applyCompPF m0).map (·.2))

/-- ensureRelative from sourceTracking.ts; the node path module is the
environment function pathRelative, absoluteness is a leading slash. -/
def ensureRelative (env : TrackingEnv) (f : String) : String :=
  if f.startsWith "/" then env.pathRelative f else f

/-- Pairing each element with a numeric id standing for the identity of
the JS object, so that reference-based Set semantics is observable: ids
below the input length are the original element objects. -/
def withIdsFrom (n : Nat) : List ChangeResult → List (Nat × ChangeResult)
  | [] => []
  | e :: t => (n, e) :: withIdsFrom (n + 1) t

def withIds (es : List ChangeResult) : List (Nat × ChangeResult) :=
  withIdsFrom 0 es

def buildStep (env : TrackingEnv) (ie : Nat × ChangeResult)
    (m2 : List (String × (Nat × ChangeResult))) (fn : String) :
    List (String × (Nat × ChangeResult)) :=
  mapSet m2 (ensureRelative env fn) ie

def buildOuter (env : TrackingEnv) (m : List (String × (Nat × ChangeResult)))
    (ie : Nat × ChangeResult) : List (String × (Nat × ChangeResult)) :=
  (ie.2.filenames.getD []).foldl (buildStep env ie) m

/-- The filename-keyed element map of populateTypesAndNames, populated
only from the filenames carried by the elements. -/
def buildElementMap (env : TrackingEnv) (ies : List (Nat × ChangeResult)) :
    List (String × (Nat × ChangeResult)) :=
  ies.foldl (buildOuter env) []

def applyFile (ty nm : String) (a : List (String × (Nat × ChangeResult)) × Nat)
    (fno : Option String) : List (String × (Nat × ChangeResult)) × Nat :=
  match fno with
  | none => a
  | some fn =>
    if fn ≠ "" then
      match mapFind a.1 fn with
      | some ie =>
        (mapSet a.1 fn (a.2, { ie.2 with type := some ty, name := some nm }), a.2 + 1)
      | none => a
    else a

/-- The matched-component loop of populateTypesAndNames: for each truthy
filename of a resolvable component already present in the map, replace
the entry with a fresh object (a fresh id) carrying the type and name. -/
def applyComp (acc : List (String × (Nat × ChangeResult)) × Nat) (comp : SourceComp) :
    List (String × (Nat × ChangeResult)) × Nat :=
  if comp.fullName ≠ "" ∧ comp.typeName ≠ "" then
    (comp.xml :: comp.walkContent.map some).foldl (applyFile comp.typeName comp.fullName) acc
  else acc

/-- De-duplication by id, keeping first occurrences: a JS Set over object
references. -/
def dedupGo (seen : List Nat) : List (Nat × ChangeResult) → List (Nat × ChangeResult)
  | [] => []
  | p :: t => if p.1 ∈ seen then dedupGo seen t else p :: dedupGo (p.1 :: seen) t

def dedupByFst (l : List (Nat × ChangeResult)) : List (Nat × ChangeResult) :=
  dedupGo [] l

/-- The de-duplicated value list a populateTypesAndNames call assembles
before the optional unresolvable filter. -/
def ptanVals (env : TrackingEnv) (es : List ChangeResult) : List ChangeResult :=
  (dedupByFst
    ((((((es.map fun e => e.filenames.getD []).flatten).map env.resolvePath).flatten).foldl
        applyComp (buildElementMap env (withIds es), es.length)).1.map (·.2))).map (·.2)

/-- populateTypesAndNames from sourceTracking.ts. The MetadataResolver is
the environment function resolvePath; a path it cannot classify yields no
components (the catch branch logs and skips). -/
def populateTypesAndNames (env : TrackingEnv) (es : List ChangeResult)
    (excludeUnresolvable : Bool) : List ChangeResult :=
  if es.isEmpty then []
  else if excludeUnresolvable then
    (ptanVals env es).filter fun c => truthyOpt c.name && truthyOpt c.type
  else ptanVals env es

/-- The filename index over resolved remote changes in getConflicts. -/
def fileNameIndex (rcs : List ChangeResult) : List (String × ChangeResult) :=
  rcs.foldl
    (fun m ch => (ch.filenames.getD []).foldl (fun m2 fn => mapSet m2 fn ch) m)
    []

def conflictStep (idx : List (String × ChangeResult)) (acc2 : List ChangeResult)
    (fn : String) : List ChangeResult :=
  match mapFind idx fn with
  | some r => acc2 ++ [r]
  | none => acc2

def conflictOuter (idx : List (String × ChangeResult)) (acc : List ChangeResult)
    (ch : ChangeResult) : List ChangeResult :=
  (ch.filenames.getD []).foldl (conflictStep idx) acc

/-- The conflict-collection loop of getConflicts: every add on the JS Set
inserts a freshly spread copy, which is a new reference, so the Set is an
append list and structurally equal copies are kept. -/
def conflictList (idx : List (String × ChangeResult)) (lcs : List ChangeResult) : List ChangeResult :=
  lcs.foldl (conflictOuter idx) []

def remoteChangedOpts : Option ChangeOptions :=
  some { origin := some Origin.rem, state := CState.changed }

/-- getConflicts from sourceTracking.ts. -/
def getConflicts (env : TrackingEnv) : Except String (List ChangeResult) :=
  match populateFilePaths env (getChanges env remoteChangedOpts) with
  | Except.error m => Except.error m
  | Except.ok remoteChanges =>
    Except.ok (conflictList (fileNameIndex remoteChanges)
      (getChanges env (some { origin := some Origin.loc, state := CState.changed })
        ++ getChanges env (some { origin := some Origin.loc, state := CState.add })))

/-- The lazily constructed ledger fields of a SourceTracking instance,
with instances named by numeric ids. -/
structure STState where
  localRepo : Option Nat
  remoteService : Option Nat
deriving DecidableEq, Repr

inductive TrackAction where
  | createLocalRepo
  | getStatusCall
  | getInstanceCall
  | retrieveUpdatesCall
deriving DecidableEq, Repr

structure STEnv where
  newLocalRepo : Nat
  newRemoteService : Nat

/-- ensureLocalTracking from sourceTracking.ts: constructs the shadow
repo and loads its status only when the field is unset. -/
def ensureLocalTracking (env : STEnv) (s : STState) : STState × List TrackAction :=
  match s.localRepo with
  | some _ => (s, [])
  | none =>
    ({ s with localRepo := some env.newLocalRepo },
     [TrackAction.createLocalRepo, TrackAction.getStatusCall])

/-- ensureRemoteTracking from sourceTracking.ts: gets the service
instance only when the field is unset, then polls only when asked to. -/
def ensureRemoteTracking (env : STEnv) (initQuery : Bool) (s : STState) : STState × List TrackAction :=
  match s.remoteService with
  | some _ => (s, [])
  | none =>
    ({ s with remoteService := some env.newRemoteService },
     TrackAction.getInstanceCall ::
       (if initQuery then [TrackAction.retrieveUpdatesCall] else []))

/-- The per-file outcome record of the transport engine, from spec
section 6. -/
structure FileResponse where
  filePath : String
  state : String
  error : Option String
deriving DecidableEq, Repr

/-- A thrown JS error as observed by a caller: its name, message and the
optional conflicts payload that the ConflictError shape would carry. -/
structure JsError where
  name : String
  message : String
  conflicts : Option (List ChangeResult)
deriving DecidableEq, Repr

/-- A plain new Error(message): name is Error, no conflicts payload. -/
def plainError (msg : String) : JsError :=
  { name := "Error", message := msg, conflicts := none }

structure PushFlags where
  forceoverwrite : Bool
  json : Bool
deriving DecidableEq, Repr

inductive PAction where
  | writeConflictTableCall
  | deployCall
  | logJsonCall
deriving DecidableEq, Repr

/-- run from src/commands/source/push.ts. The deploy outcome is the
parameter dep: deployLocalChanges is referenced by push.ts but only
present as a commented stub in sourceTracking.ts, so it is modelled from
the spec as the transport engine returning per-file outcome records. -/
def runPush (env : TrackingEnv) (dep : List FileResponse) (flags : PushFlags) :
    Except JsError (List FileResponse) × List PAction :=
  let proceed : Except JsError (List FileResponse) × List PAction :=
    (Except.ok dep,
     if flags.json then [PAction.deployCall] else [PAction.deployCall, PAction.logJsonCall])
  if flags.forceoverwrite then proceed
  else
    match getConflicts env with
    | Except.error m => (Except.error (plainError m), [])
    | Except.ok cs =>
      if 0 < cs.length then
        (Except.error (plainError "conflicts detected"), [PAction.writeConflictTableCall])
      else proceed

/-
Concrete fixtures used by the scenario theorems and the witnesses, built
after the Foo.cls scenario of the spec: one remote ApexClass named Foo
whose local source resolves to a meta descriptor plus a content file.
-/

def fooComp : SourceComp :=
  { fullName := "Foo", typeName := "ApexClass",
    xml := some "classes/Foo.cls-meta.xml", walkContent := ["classes/Foo.cls"] }

def fooRemote : RemoteChangeElement :=
  { name := "Foo", type := "ApexClass", deleted := some false, modified := none }

def fooScenarioEnv : TrackingEnv :=
  { projectPath := "proj", pathRelative := fun f => f,
    getModifyFilenames := [], getAddFilenames := ["classes/Foo.cls"],
    getDeleteFilenames := [], retrieveUpdates := [fooRemote],
    fromSource := fun _ => [fooComp], resolvePath := fun _ => [] }

/-- The single conflict record the Foo.cls scenario produces. -/
def fooScenarioConflict : ChangeResult :=
  { origin := some Origin.rem, type := some "ApexClass", name := some "Foo",
    deleted := some false, modified := some true,
    filenames := some ["classes/Foo.cls-meta.xml", "classes/Foo.cls"] }

/-- The scenario where two distinct local files both collide with the one
remote change. -/
def dupConflictEnv : TrackingEnv :=
  { fooScenarioEnv with
      getModifyFilenames := ["classes/Foo.cls"],
      getAddFilenames := ["classes/Foo.cls-meta.xml"] }

/-- The scenario where the local and remote filename sets are disjoint. -/
def disjointEnv : TrackingEnv :=
  { fooScenarioEnv with getAddFilenames := ["pages/Other.page"] }

/-- A retrieved update that carries no deleted flag at all. -/
def undeletedRemote : RemoteChangeElement :=
  { name := "Foo", type := "ApexClass", deleted := none, modified := none }

def missingDeletedEnv : TrackingEnv :=
  { fooScenarioEnv with retrieveUpdates := [undeletedRemote], getAddFilenames := [] }

/-- A remote-style ChangeResult with type and name, as duplicated input
for the populateFilePaths size guard. -/
def dupCR : ChangeResult :=
  { origin := some Origin.rem, type := some "ApexClass", name := some "Foo",
    deleted := none, modified := none, filenames := none }

/-- An element carrying a type but no name. -/
def typedNamelessCR : ChangeResult :=
  { origin := some Origin.rem, type := some "ApexClass", name := none,
    deleted := none, modified := none, filenames := none }

/-- The unresolvable-path scenario input: a single local change over
classes/Bar.cls that the resolver cannot classify. -/
def barCR : ChangeResult :=
  { origin := some Origin.loc, type := none, name := none,
    deleted := none, modified := none, filenames := some ["classes/Bar.cls"] }

/-- A local change record that carries no filenames list at all. -/
def noFileCR : ChangeResult :=
  { origin := some Origin.loc, type := none, name := none,
    deleted := none, modified := none, filenames := none }

/-- Push invoked with neither the forceoverwrite nor the json flag. -/
def noForceFlags : PushFlags :=
  { forceoverwrite := false, json := false }

/-- Every value stored in the map carries a non-empty filenames list. -/
def goodMap (m : List (String × (Nat × ChangeResult))) : Prop :=
  ∀ p ∈ m, ∃ l, p.2.2.filenames = some l ∧ l ≠ []

/-- The same invariant on the fold state of the matched-component loop. -/
def goodState (a : List (String × (Nat × ChangeResult)) × Nat) : Prop :=
  goodMap a.1

/-
Helper lemmas.
-/

theorem foldl_preserves {α β : Type _} {P : β → Prop} {f : β → α → β}
    (hf : ∀ b a, P b → P (f b a)) :
    ∀ (l : List α) {b : β}, P b → P (l.foldl f b) := by
  intro l
  induction l with
  | nil => intro b hb; simpa using hb
  | cons a t ih =>
    intro b hb
    rw [List.foldl_cons]
    exact ih (hf b a hb)

theorem mem_of_mem_mapSet {β : Type} {m : List (String × β)} {k : String} {v : β}
    {p : String × β} (hp : p ∈ mapSet m k v) : p = (k, v) ∨ p ∈ m := by
  unfold mapSet at hp
  split at hp
  · obtain ⟨q, hq, he⟩ := List.mem_map.mp hp
    by_cases h : (q.1 == k) = true
    · left
      rw [← he, if_pos h]
    · right
      rw [← he, if_neg h]
      exact hq
  · rcases List.mem_append.mp hp with h | h
    · right; exact h
    · left
      simpa using h

theorem mem_of_mapFind_eq_some {β : Type} {m : List (String × β)} {k : String} {v : β}
    (h : mapFind m k = some v) : (k, v) ∈ m := by
  unfold mapFind at h
  cases hf : m.find? (fun p => p.1 == k) with
  | none => rw [hf] at h; simp at h
  | some p =>
    rw [hf] at h
    simp at h
    have hmem := List.mem_of_find?_eq_some hf
    have hpred := List.find?_some hf
    have h1 : p.1 = k := by simpa using hpred
    obtain ⟨p1, p2⟩ := p
    simp only at h1 h
    rw [← h1, ← h]
    exact hmem

theorem dedupGo_subset {p : Nat × ChangeResult} :
    ∀ (seen : List Nat) (l : List (Nat × ChangeResult)), p ∈ dedupGo seen l → p ∈ l := by
  intro seen l
  induction l generalizing seen with
  | nil =>
    intro h
    simp only [dedupGo] at h
    exact absurd h (List.not_mem_nil p)
  | cons q t ih =>
    intro h
    unfold dedupGo at h
    split at h
    · exact List.mem_cons_of_mem _ (ih _ h)
    · rcases List.mem_cons.mp h with h1 | h1
      · exact h1 ▸ List.mem_cons_self _ _
      · exact List.mem_cons_of_mem _ (ih _ h1)

theorem conflictList_wrapLocal_go (idx : List (String × ChangeResult)) :
    ∀ (fns : List String) (acc : List ChangeResult),
      (wrapLocal fns).foldl (conflictOuter idx) acc = acc ++ fns.filterMap (mapFind idx) := by
  intro fns
  induction fns with
  | nil =>
    intro acc
    simp [wrapLocal]
  | cons f t ih =>
    intro acc
    have hstep : conflictOuter idx acc (wrapOne f) = conflictStep idx acc f := by
      simp [conflictOuter, wrapOne]
    rw [wrapLocal, List.map_cons, List.foldl_cons, ← wrapLocal, hstep, ih]
    cases h : mapFind idx f with
    | some r => simp [conflictStep, h, List.filterMap_cons]
    | none => simp [conflictStep, h, List.filterMap_cons]

theorem conflictList_wrapLocal (idx : List (String × ChangeResult)) (fns : List String) :
    conflictList idx (wrapLocal fns) = fns.filterMap (mapFind idx) := by
  simpa [conflictList] using conflictList_wrapLocal_go idx fns []

theorem wrapLocal_append (a b : List String) :
    wrapLocal a ++ wrapLocal b = wrapLocal (a ++ b) := by
  simp [wrapLocal]

/-- The outcome of getConflicts once the remote side resolved: each local
filename in order is looked up in the filename index, hits are appended. -/
theorem getConflicts_ok (env : TrackingEnv) (rcs : List ChangeResult)
    (h : populateFilePaths env (getChanges env remoteChangedOpts) = Except.ok rcs) :
    getConflicts env = Except.ok
      ((env.getModifyFilenames ++ env.getAddFilenames).filterMap (mapFind (fileNameIndex rcs))) := by
  unfold getConflicts
  rw [h]
  have h1 : getChanges env (some { origin := some Origin.loc, state := CState.changed })
      = wrapLocal env.getModifyFilenames := rfl
  have h2 : getChanges env (some { origin := some Origin.loc, state := CState.add })
      = wrapLocal env.getAddFilenames := rfl
  dsimp only
  rw [h1, h2, wrapLocal_append, conflictList_wrapLocal]

theorem length_filterMap_eq_countP {α β : Type _} (f : α → Option β) (l : List α) :
    (l.filterMap f).length = l.countP fun a => (f a).isSome := by
  induction l with
  | nil => simp
  | cons a t ih =>
    cases h : f a with
    | none => simp [List.filterMap_cons, h, List.countP_cons, ih]
    | some b => simp [List.filterMap_cons, h, List.countP_cons, ih]

theorem goodMap_mapSet {m : List (String × (Nat × ChangeResult))} {k : String}
    {ie : Nat × ChangeResult} (hm : goodMap m)
    (hie : ∃ l, ie.2.filenames = some l ∧ l ≠ []) : goodMap (mapSet m k ie) := by
  intro p hp
  rcases mem_of_mem_mapSet hp with he | hin
  · rw [he]
    exact hie
  · exact hm p hin

theorem goodMap_buildElementMap (env : TrackingEnv) (ies : List (Nat × ChangeResult)) :
    goodMap (buildElementMap env ies) := by
  unfold buildElementMap
  apply foldl_preserves (P := goodMap)
  · intro m ie hm
    unfold buildOuter
    cases hfn : ie.2.filenames with
    | none => simpa [hfn] using hm
    | some l =>
      cases l with
      | nil => simpa [hfn] using hm
      | cons a t =>
        apply foldl_preserves (P := goodMap)
        · intro m2 fn hm2
          unfold buildStep
          exact goodMap_mapSet hm2 ⟨a :: t, hfn, by simp⟩
        · exact hm
  · intro p hp
    exact absurd hp (List.not_mem_nil p)

theorem goodState_applyFile (ty nm : String) :
    ∀ (b : List (String × (Nat × ChangeResult)) × Nat) (fno : Option String),
      goodState b → goodState (applyFile ty nm b fno) := by
  intro b fno hb
  unfold applyFile
  cases fno with
  | none => exact hb
  | some fn =>
    dsimp only
    split
    · cases hfind : mapFind b.1 fn with
      | none => simpa [hfind] using hb
      | some ie =>
        simp only [hfind]
        have hmem := mem_of_mapFind_eq_some hfind
        obtain ⟨l, hl, hne⟩ := hb (fn, ie) hmem
        exact goodMap_mapSet hb ⟨l, hl, hne⟩
    · exact hb

theorem goodState_applyComp :
    ∀ (a : List (String × (Nat × ChangeResult)) × Nat) (comp : SourceComp),
      goodState a → goodState (applyComp a comp) := by
  intro a comp h
  unfold applyComp
  split
  · exact foldl_preserves (goodState_applyFile comp.typeName comp.fullName) _ h
  · exact h

/-- Every record returned by populateTypesAndNames carries a non-empty
filenames list: the output is assembled from a filename-keyed map that is
populated only from the filenames of the elements. -/
theorem populateTypesAndNames_all_good (env : TrackingEnv) (es : List ChangeResult)
    (ex : Bool) : ∀ c ∈ populateTypesAndNames env es ex,
      ∃ l, c.filenames = some l ∧ l ≠ [] := by
  intro c hc
  have hvals : ∀ c2 ∈ ptanVals env es, ∃ l, c2.filenames = some l ∧ l ≠ [] := by
    intro c2 hc2
    unfold ptanVals at hc2
    obtain ⟨p, hp, hpc⟩ := List.mem_map.mp hc2
    have hp2 : p ∈ ((((((es.map fun e => e.filenames.getD []).flatten).map env.resolvePath).flatten).foldl
        applyComp (buildElementMap env (withIds es), es.length)).1.map (·.2)) :=
      dedupGo_subset _ _ hp
    obtain ⟨q, hq, hqp⟩ := List.mem_map.mp hp2
    have hgood : goodState (((((es.map fun e => e.filenames.getD []).flatten).map env.resolvePath).flatten).foldl
        applyComp (buildElementMap env (withIds es), es.length)) :=
      foldl_preserves goodState_applyComp _ (goodMap_buildElementMap env (withIds es))
    obtain ⟨l, hl, hne⟩ := hgood q hq
    exact ⟨l, by rw [← hpc, ← hqp]; exact hl, hne⟩
  unfold populateTypesAndNames at hc
  split at hc
  · exact absurd hc (List.not_mem_nil c)
  · split at hc
    · exact hvals c (List.mem_of_mem_filter hc)
    · exact hvals c hc

theorem remoteToCR_injective : Function.Injective remoteToCR := by
  intro a b h
  obtain ⟨an, at1, ad, am⟩ := a
  obtain ⟨bn, bt, bd, bm⟩ := b
  simp only [remoteToCR, ChangeResult.mk.injEq, Option.some.injEq] at h
  obtain ⟨-, h1, h2, h3, h4, -⟩ := h
  simp_all

/-
Claim theorems.
-/

/-- C1: the claim says getConflicts de-duplicates conflicts by structural
value, so the result never contains two structurally equal records. The
code adds a fresh spread copy to a JS Set for every matching local
filename, and a Set compares object references, so two local files
matching the same remote change yield two structurally equal entries:
evaluating getConflicts at that input returns the same record twice,
contradicting the deeply de-dupe comment above the return. -/
theorem getConflicts_duplicate_structural_entries :
    getConflicts dupConflictEnv = Except.ok [fooScenarioConflict, fooScenarioConflict] := rfl

/-- C2: getConflicts returns the empty list when the local changed plus
added filenames are disjoint from the filenames indexed off the resolved
remote changed results, returns exactly one conflict entry when exactly
one local filename hits that index, and in the Foo.cls scenario the one
entry references name Foo and type ApexClass. -/
theorem getConflicts_disjoint_and_single_overlap
    (env1 env2 : TrackingEnv) (rcs1 rcs2 : List ChangeResult)
    (h1 : populateFilePaths env1 (getChanges env1 remoteChangedOpts) = Except.ok rcs1)
    (hd : ∀ fn ∈ env1.getModifyFilenames ++ env1.getAddFilenames,
      mapFind (fileNameIndex rcs1) fn = none)
    (h2 : populateFilePaths env2 (getChanges env2 remoteChangedOpts) = Except.ok rcs2)
    (hs : ((env2.getModifyFilenames ++ env2.getAddFilenames).countP
      fun fn => (mapFind (fileNameIndex rcs2) fn).isSome) = 1) :
    getConflicts env1 = Except.ok [] ∧ (∃ c, getConflicts env2 = Except.ok [c]) ∧
    getConflicts fooScenarioEnv = Except.ok [fooScenarioConflict] := by
  refine ⟨?_, ?_, rfl⟩
  · rw [getConflicts_ok env1 rcs1 h1]
    congr 1
    exact List.filterMap_eq_nil_iff.mpr hd
  · rw [getConflicts_ok env2 rcs2 h2]
    have hlen : ((env2.getModifyFilenames ++ env2.getAddFilenames).filterMap
        (mapFind (fileNameIndex rcs2))).length = 1 := by
      rw [length_filterMap_eq_countP]
      exact hs
    obtain ⟨c, hc⟩ := List.length_eq_one.mp hlen
    exact ⟨c, by rw [hc]⟩

theorem getConflicts_disjoint_and_single_overlap_witness :
    getConflicts disjointEnv = Except.ok [] ∧
    (∃ c, getConflicts fooScenarioEnv = Except.ok [c]) ∧
    getConflicts fooScenarioEnv = Except.ok [fooScenarioConflict] :=
  getConflicts_disjoint_and_single_overlap disjointEnv fooScenarioEnv
    [fooScenarioConflict] [fooScenarioConflict] rfl (by decide) rfl (by decide)

/-- C3: populateFilePaths fails loudly: on a non-empty input whose
component set has fewer members than the input list it returns an error
naming the requested elements and no result. -/
theorem populateFilePaths_size_guard_throws (env : TrackingEnv) (es : List ChangeResult)
    (hne : es ≠ [])
    (hlt : ((es.map fun e => (e.type, e.name)).dedup).length < es.length) :
    populateFilePaths env es = Except.error
      ("unable to generate complete component set for "
        ++ String.intercalate "," (es.map describeNameType)) := by
  have h0 : es.isEmpty = false := by
    cases es with
    | nil => exact absurd rfl hne
    | cons a t => rfl
  simp [populateFilePaths, h0, hlt]

theorem populateFilePaths_size_guard_throws_witness :
    populateFilePaths fooScenarioEnv [dupCR, dupCR] = Except.error
      ("unable to generate complete component set for "
        ++ String.intercalate "," ([dupCR, dupCR].map describeNameType)) :=
  populateFilePaths_size_guard_throws fooScenarioEnv [dupCR, dupCR] (by decide) (by decide)

/-- C4 counterexample: the claim says push surfaces a non-empty conflict
list as a structured error with name conflict carrying the conflicts
array. The code throws new Error with message conflicts detected, whose
name is Error and which carries no conflicts payload. -/
theorem runPush_plain_error_counterexample :
    (runPush fooScenarioEnv [] noForceFlags).1 = Except.error (plainError "conflicts detected") ∧
    (plainError "conflicts detected").name ≠ "conflict" ∧
    (plainError "conflicts detected").conflicts = none :=
  ⟨rfl, by decide, rfl⟩

/-- C4 amended: when forceoverwrite is not set and getConflicts is
non-empty, push refuses to proceed before any deploy, but the failure is
a plain Error with message conflicts detected, not the ConflictError
shape. -/
theorem runPush_refuses_before_deploy (env : TrackingEnv) (dep : List FileResponse)
    (flags : PushFlags) (cs : List ChangeResult)
    (hf : flags.forceoverwrite = false)
    (hc : getConflicts env = Except.ok cs) (hne : cs ≠ []) :
    (runPush env dep flags).1 = Except.error (plainError "conflicts detected") ∧
    PAction.deployCall ∉ (runPush env dep flags).2 := by
  have hlen : 0 < cs.length := List.length_pos.mpr hne
  have hrun : runPush env dep flags
      = (Except.error (plainError "conflicts detected"), [PAction.writeConflictTableCall]) := by
    simp [runPush, hf, hc, hlen]
  rw [hrun]
  exact ⟨rfl, by simp⟩

theorem runPush_refuses_before_deploy_witness :
    (runPush fooScenarioEnv [] noForceFlags).1 = Except.error (plainError "conflicts detected") ∧
    PAction.deployCall ∉ (runPush fooScenarioEnv [] noForceFlags).2 :=
  runPush_refuses_before_deploy fooScenarioEnv [] noForceFlags [fooScenarioConflict]
    rfl rfl (by decide)

/-- C5 counterexample: the claim says every retrieved update lands in the
delete result iff its deleted flag is set, and in the changed result
otherwise. A retrieved update with no deleted flag at all appears in
neither result, because strict equality between an absent flag and a
boolean is false. -/
theorem getChanges_remote_missing_deleted_counterexample :
    undeletedRemote ∈ missingDeletedEnv.retrieveUpdates ∧
    getChanges missingDeletedEnv (some { origin := some Origin.rem, state := CState.changed }) = [] ∧
    getChanges missingDeletedEnv (some { origin := some Origin.rem, state := CState.delete }) = [] :=
  ⟨by decide, rfl, rfl⟩

/-- C5 amended: for origin remote, a retrieved update appears in the
state delete result iff its deleted flag is present and true, and in the
state changed result iff the flag is present and false; an update with no
deleted flag appears in neither, so each update appears in at most one of
the two result sets. -/
theorem getChanges_remote_deleted_filter (env : TrackingEnv) (c : RemoteChangeElement)
    (hc : c ∈ env.retrieveUpdates) :
    (remoteToCR c ∈ getChanges env (some { origin := some Origin.rem, state := CState.delete })
      ↔ c.deleted = some true) ∧
    (remoteToCR c ∈ getChanges env (some { origin := some Origin.rem, state := CState.changed })
      ↔ c.deleted = some false) := by
  have hmem : ∀ (b : Bool) (l : List RemoteChangeElement), c ∈ l →
      ((remoteToCR c ∈ (l.filter fun x => decide (x.deleted = some b)).map remoteToCR)
        ↔ c.deleted = some b) := by
    intro b l hl
    constructor
    · intro h
      obtain ⟨a, ha, hac⟩ := List.mem_map.mp h
      have hca : a = c := remoteToCR_injective hac
      subst hca
      exact of_decide_eq_true (List.mem_filter.mp ha).2
    · intro h
      exact List.mem_map.mpr ⟨c, List.mem_filter.mpr ⟨hl, decide_eq_true h⟩, rfl⟩
  have hd : getChanges env (some { origin := some Origin.rem, state := CState.delete })
      = (env.retrieveUpdates.filter fun x => decide (x.deleted = some true)).map remoteToCR := by
    simp [getChanges]
  have hg : getChanges env (some { origin := some Origin.rem, state := CState.changed })
      = (env.retrieveUpdates.filter fun x => decide (x.deleted = some false)).map remoteToCR := by
    simp [getChanges]
  exact ⟨hd ▸ hmem true _ hc, hg ▸ hmem false _ hc⟩

theorem getChanges_remote_deleted_filter_witness :
    (remoteToCR fooRemote ∈ getChanges fooScenarioEnv
        (some { origin := some Origin.rem, state := CState.delete })
      ↔ fooRemote.deleted = some true) ∧
    (remoteToCR fooRemote ∈ getChanges fooScenarioEnv
        (some { origin := some Origin.rem, state := CState.changed })
      ↔ fooRemote.deleted = some false) :=
  getChanges_remote_deleted_filter fooScenarioEnv fooRemote (by decide)

/-- C6 counterexample: the claim says the identity error is raised
exactly when the element lacks both type and name. An element carrying a
type and lacking only the name still raises the error. -/
theorem getKeyFromObject_missing_name_counterexample :
    (∃ m, getKeyFromObject typedNamelessCR = Except.error m) ∧ typedNamelessCR.type ≠ none :=
  ⟨⟨"unable to complete key from undefined(ApexClass)", rfl⟩, by decide⟩

/-- C6 amended: getKeyFromObject raises the identity error exactly when
the element lacks a truthy type or a truthy name, and for every element
carrying both it returns the deterministic metadata key built from type
and name; the failure concerns only the element passed in. -/
theorem getKeyFromObject_characterization (e : ChangeResult) :
    (∀ t n, e.type = some t → e.name = some n → t ≠ "" → n ≠ "" →
      getKeyFromObject e = Except.ok (getMetadataKey t n)) ∧
    ((getKeyFromObject e).isOk = true ↔ (truthyOpt e.type = true ∧ truthyOpt e.name = true)) := by
  constructor
  · intro t n ht hn h1 h2
    simp [getKeyFromObject, ht, hn, h1, h2]
  · cases ht : e.type with
    | none => simp [getKeyFromObject, ht, truthyOpt, Except.isOk, Except.toBool]
    | some t =>
      cases hn : e.name with
      | none => simp [getKeyFromObject, ht, hn, truthyOpt, Except.isOk, Except.toBool]
      | some n =>
        by_cases h1 : t = ""
        · simp [getKeyFromObject, ht, hn, truthyOpt, h1, Except.isOk, Except.toBool]
        · by_cases h2 : n = ""
          · simp [getKeyFromObject, ht, hn, truthyOpt, h1, h2, Except.isOk, Except.toBool]
          · simp [getKeyFromObject, ht, hn, truthyOpt, h1, h2, Except.isOk, Except.toBool]

theorem getKeyFromObject_characterization_witness :
    getKeyFromObject dupCR = Except.ok (getMetadataKey "ApexClass" "Foo") ∧
    ((getKeyFromObject dupCR).isOk = true
      ↔ (truthyOpt dupCR.type = true ∧ truthyOpt dupCR.name = true)) :=
  ⟨(getKeyFromObject_characterization dupCR).1 "ApexClass" "Foo" rfl rfl
      (by decide) (by decide),
   (getKeyFromObject_characterization dupCR).2⟩

/-- C7: populateTypesAndNames over a single ChangeResult whose single
filename the resolver cannot classify returns the empty list when
excludeUnresolvable is true, and exactly that one ChangeResult, still
with no type and no name, when excludeUnresolvable is false. -/
theorem populateTypesAndNames_unresolvable_scenario (env : TrackingEnv)
    (e : ChangeResult) (f : String)
    (hf : e.filenames = some [f]) (hr : env.resolvePath f = [])
    (ht : e.type = none) (hn : e.name = none) :
    populateTypesAndNames env [e] true = [] ∧
    populateTypesAndNames env [e] false = [e] := by
  have hvals : ptanVals env [e] = [e] := by
    unfold ptanVals
    simp [hf, hr, withIds, withIdsFrom, buildElementMap, buildOuter, buildStep,
      mapSet, dedupByFst, dedupGo]
  constructor
  · simp [populateTypesAndNames, hvals, truthyOpt, hn, ht]
  · simp [populateTypesAndNames, hvals]

theorem populateTypesAndNames_unresolvable_scenario_witness :
    populateTypesAndNames fooScenarioEnv [barCR] true = [] ∧
    populateTypesAndNames fooScenarioEnv [barCR] false = [barCR] :=
  populateTypesAndNames_unresolvable_scenario fooScenarioEnv barCR "classes/Bar.cls"
    rfl rfl rfl rfl

/-- C8: the two ensure operations are idempotent at-most-once lazy
constructions: a second call returns the state of the first call
unchanged and performs no construction, and the remote variant polls
exactly when it constructs with initializeWithQuery set. -/
theorem ensureTracking_idempotent_lazy (env : STEnv) (s : STState) (b b' : Bool) :
    (ensureLocalTracking env (ensureLocalTracking env s).1
      = ((ensureLocalTracking env s).1, [])) ∧
    (ensureRemoteTracking env b' (ensureRemoteTracking env b s).1
      = ((ensureRemoteTracking env b s).1, [])) ∧
    (TrackAction.retrieveUpdatesCall ∈ (ensureRemoteTracking env b s).2
      ↔ (s.remoteService = none ∧ b = true)) ∧
    (TrackAction.createLocalRepo ∈ (ensureLocalTracking env s).2 ↔ s.localRepo = none) ∧
    (TrackAction.getInstanceCall ∈ (ensureRemoteTracking env b s).2
      ↔ s.remoteService = none) := by
  obtain ⟨sl, sr⟩ := s
  cases sl <;> cases sr <;> cases b <;>
    simp [ensureLocalTracking, ensureRemoteTracking]

/-- C9: getChanges returns the empty list for undefined options, for
options without an origin, and for origin local with state unchanged or
moved: none of the branch-handled combinations is hit there. -/
theorem getChanges_unrecognized_options_empty (env : TrackingEnv)
    (opts : Option ChangeOptions)
    (h : opts = none ∨ (∃ s, opts = some { origin := none, state := s })
      ∨ opts = some { origin := some Origin.loc, state := CState.unchanged }
      ∨ opts = some { origin := some Origin.loc, state := CState.moved }) :
    getChanges env opts = [] := by
  rcases h with rfl | ⟨s, rfl⟩ | rfl | rfl
  · rfl
  · cases s <;> rfl
  · rfl
  · rfl

theorem getChanges_unrecognized_options_empty_witness :
    getChanges fooScenarioEnv
      (some { origin := some Origin.loc, state := CState.unchanged }) = [] :=
  getChanges_unrecognized_options_empty fooScenarioEnv _ (Or.inr (Or.inr (Or.inl rfl)))

/-- C10: populateTypesAndNames drops every ChangeResult that carries no
filenames, whatever the excludeUnresolvable flag: the output is assembled
from a filename-keyed map populated only from the elements filenames, so
a record without filenames can never be a member of the output. -/
theorem populateTypesAndNames_drops_no_filename_elements (env : TrackingEnv)
    (es : List ChangeResult) (ex : Bool) (c : ChangeResult)
    (hc : c.filenames = none ∨ c.filenames = some []) :
    c ∉ populateTypesAndNames env es ex := by
  intro hmem
  obtain ⟨l, hl, hne⟩ := populateTypesAndNames_all_good env es ex c hmem
  rcases hc with h | h
  · rw [h] at hl
    exact Option.noConfusion hl
  · rw [h] at hl
    exact hne (Option.some.inj hl).symm

theorem populateTypesAndNames_drops_no_filename_elements_witness :
    noFileCR ∉ populateTypesAndNames fooScenarioEnv [noFileCR] false :=
  populateTypesAndNames_drops_no_filename_elements fooScenarioEnv [noFileCR] false noFileCR
    (Or.inl rfl)

end ST
